import Mathlib

/-!
Verification of the `markdown-url-converter` repository
(`src/markdown-url-converter.py`).

The program rewrites relative Markdown link targets into absolute URLs.
Its core function `convert_markdown_urls(content, base_url)` applies three
regular-expression substitution passes (inline links, image references,
reference-style definitions), each replacement resolving the captured
target with `urllib.parse.urljoin(base_url.rstrip('/') + "/", target)`.

This file gives a shallow embedding of that program over `List Char`:

* a model of CPython `urllib.parse` (`urlsplit`, `urlparse`, `urlunsplit`,
  `urlunparse`, `urljoin`) for `str` arguments, translated from the
  CPython 3.11 sources, including the `ValueError` raised on an
  unbalanced-bracket authority ("Invalid IPv6 URL").  `urljoin` can raise,
  so the model returns `Except String (List Char)`.
* a character-level model of the three `re.sub` passes.  Each of the
  repository's patterns is built from negated character classes followed
  by the negated character, so greedy matching is deterministic
  (no observable backtracking) and each pattern is modelled by a direct
  functional matcher; `re.sub` left-to-right non-overlapping scanning is
  modelled by a fuel-indexed scanner (fuel = length of the text, enough
  because every match consumes at least one character).
* a model of the `main` entry point over an abstract environment
  (optional `BASE_URL` value, argv list, a lookup function for the file
  system), returning the exit code, the optionally written output file
  and the console messages.

Two deliberate approximations of CPython, both outside the inputs used by
any theorem below: the NFKC check of `_checknetloc` is modelled
conservatively as an error on any non-ASCII authority, and the
bracketed-host validation added in late CPython patch releases is not
modelled (the unbalanced-bracket check, present in every version, is).
-/

namespace MdConv

/-- Characters matched by Python's `\s` in a `str` pattern
(Unicode whitespace). -/
def pySpace (c : Char) : Bool :=
  let n := c.toNat
  (n == 32) || (9 ≤ n && n ≤ 13) || (28 ≤ n && n ≤ 31) || (n == 0x85) ||
  (n == 0xa0) || (n == 0x1680) || (0x2000 ≤ n && n ≤ 0x200a) ||
  (n == 0x2028) || (n == 0x2029) || (n == 0x202f) || (n == 0x205f) ||
  (n == 0x3000)

/-- Split a list at the first occurrence of `d`: `some (before, after)`
with the delimiter removed, `none` when `d` does not occur.  Models both
Python's `str.find` + slicing and a greedy `[^d]*d` regex step. -/
def splitFirst (d : Char) : List Char → Option (List Char × List Char)
  | [] => none
  | c :: cs =>
    if c = d then some ([], cs)
    else (splitFirst d cs).map (fun p => (c :: p.1, p.2))

/-- Split at the last occurrence of `d` (Python `str.rfind`). -/
def splitLast (d : Char) (s : List Char) : Option (List Char × List Char) :=
  match splitFirst d s.reverse with
  | some (a, b) => some (b.reverse, a.reverse)
  | none => none

/-- Python `str.split(sep)` for a one-character separator. -/
def splitChar (sep : Char) : List Char → List (List Char)
  | [] => [[]]
  | c :: cs =>
    if c = sep then [] :: splitChar sep cs
    else
      match splitChar sep cs with
      | h :: t => (c :: h) :: t
      | [] => [[c]]

/-- Python `sep.join(parts)` for a one-character separator. -/
def joinChar (sep : Char) : List (List Char) → List Char
  | [] => []
  | [a] => a
  | a :: b :: t => a ++ sep :: joinChar sep (b :: t)

/-- ASCII letter test: Python `c.isascii() and c.isalpha()`. -/
def isAsciiAlpha (c : Char) : Bool :=
  (65 ≤ c.toNat && c.toNat ≤ 90) || (97 ≤ c.toNat && c.toNat ≤ 122)

/-- ASCII lowering, as Python `str.lower` acts on scheme characters
(which are all ASCII once validated against `scheme_chars`). -/
def asciiLower (c : Char) : Char :=
  if 65 ≤ c.toNat && c.toNat ≤ 90 then Char.ofNat (c.toNat + 32) else c

/-- `urllib.parse.scheme_chars`. -/
def schemeChars : List Char :=
  "abcdefghijklmnopqrstuvwxyzABCDEFGHIJKLMNOPQRSTUVWXYZ0123456789+-.".toList

/-- `urllib.parse.uses_relative`. -/
def usesRelative : List (List Char) :=
  [ "".toList, "ftp".toList, "http".toList, "gopher".toList, "nntp".toList,
    "imap".toList, "wais".toList, "file".toList, "https".toList,
    "shttp".toList, "mms".toList, "prospero".toList, "rtsp".toList,
    "rtspu".toList, "sftp".toList, "svn".toList, "svn+ssh".toList,
    "ws".toList, "wss".toList ]

/-- `urllib.parse.uses_netloc`. -/
def usesNetloc : List (List Char) :=
  [ "".toList, "ftp".toList, "http".toList, "gopher".toList, "nntp".toList,
    "telnet".toList, "imap".toList, "wais".toList, "file".toList,
    "mms".toList, "https".toList, "shttp".toList, "snews".toList,
    "prospero".toList, "rtsp".toList, "rtspu".toList, "rsync".toList,
    "svn".toList, "svn+ssh".toList, "sftp".toList, "nfs".toList,
    "git".toList, "git+ssh".toList, "ws".toList, "wss".toList ]

/-- `urllib.parse.uses_params`. -/
def usesParams : List (List Char) :=
  [ "".toList, "ftp".toList, "hdl".toList, "prospero".toList,
    "http".toList, "imap".toList, "https".toList, "shttp".toList,
    "rtsp".toList, "rtspu".toList, "sip".toList, "sips".toList,
    "mms".toList, "sftp".toList, "tel".toList ]

/-- Result of `urlsplit`: scheme, netloc, path, query, fragment. -/
structure SplitResult where
  scheme : List Char
  netloc : List Char
  path : List Char
  query : List Char
  fragment : List Char
  deriving DecidableEq, Repr

/-- Result of `urlparse`: `urlsplit` plus the `;params` component. -/
structure ParseResult where
  scheme : List Char
  netloc : List Char
  path : List Char
  params : List Char
  query : List Char
  fragment : List Char
  deriving DecidableEq, Repr

/-- The message of the `ValueError` raised on an unbalanced bracket in the
authority component. -/
def msgInvalidIPv6 : String := "Invalid IPv6 URL"

/-- Stand-in message for the `ValueError` raised by `_checknetloc`.  The
model raises it on every non-ASCII authority (CPython raises only when
NFKC normalization of the authority introduces a delimiter; every theorem
below stays in the ASCII regime, where both behaviours agree). -/
def msgBadNetloc : String := "netloc contains invalid characters"

/-- Python `c not in '\t\r\n'`, used by the WHATWG unsafe-byte removal in
`urlsplit`. -/
def notUnsafe (c : Char) : Bool := !(c == '\t' || c == '\r' || c == '\n')

/-- Scheme detection step of `urlsplit`: if the text up to the first `:`
is a valid scheme (nonempty, leading ASCII letter, all characters in
`scheme_chars`), return it lowercased together with the remainder,
otherwise keep the default scheme and the whole text. -/
def schemeSplit (url dflt : List Char) : List Char × List Char :=
  match splitFirst ':' url with
  | some (pre, post) =>
    if pre ≠ [] && isAsciiAlpha (pre.headD ' ') && pre.all (· ∈ schemeChars)
    then (pre.map asciiLower, post)
    else (dflt, url)
  | none => (dflt, url)

/-- `_splitnetloc`: the authority extends to the first of `/`, `?`, `#`. -/
def netlocStop (c : Char) : Bool := !(c == '/' || c == '?' || c == '#')

/-- Split off `#fragment` then `?query` (in that order, as `urlsplit`
does), returning (path, query, fragment). -/
def splitFragQuery (u : List Char) : List Char × List Char × List Char :=
  let p1 := match splitFirst '#' u with
    | some (a, b) => (a, b)
    | none => (u, [])
  let p2 := match splitFirst '?' p1.1 with
    | some (a, b) => (a, b)
    | none => (p1.1, [])
  (p2.1, p2.2, p1.2)

/-- Model of `urllib.parse.urlsplit` for `str` input (CPython 3.11). -/
def urlsplit (url dflt : List Char) : Except String SplitResult :=
  let url := url.filter notUnsafe
  let dflt := dflt.filter notUnsafe
  let sp := schemeSplit url dflt
  let scheme := sp.1
  let rest := sp.2
  if rest.take 2 = ['/', '/'] then
    let netloc := (rest.drop 2).takeWhile netlocStop
    let rest2 := (rest.drop 2).dropWhile netlocStop
    if ('[' ∈ netloc ∧ ']' ∉ netloc) ∨ (']' ∈ netloc ∧ '[' ∉ netloc) then
      .error msgInvalidIPv6
    else if netloc ≠ [] ∧ ¬ netloc.all (fun c => c.toNat < 128) then
      .error msgBadNetloc
    else
      let fq := splitFragQuery rest2
      .ok ⟨scheme, netloc, fq.1, fq.2.1, fq.2.2⟩
  else
    let fq := splitFragQuery rest
    .ok ⟨scheme, [], fq.1, fq.2.1, fq.2.2⟩

/-- `urllib.parse._splitparams`, including the `find` returning `-1`
quirk in the no-slash branch (unreachable from `urlparse`, which only
calls it when `;` occurs). -/
def splitparams (url : List Char) : List Char × List Char :=
  if '/' ∈ url then
    match splitLast '/' url with
    | some (pre, suf) =>
      match splitFirst ';' suf with
      | some (a, b) => (pre ++ '/' :: a, b)
      | none => (url, [])
    | none => (url, [])
  else
    match splitFirst ';' url with
    | some (a, b) => (a, b)
    | none => (url.dropLast, url)

/-- Model of `urllib.parse.urlparse`. -/
def urlparse (url dflt : List Char) : Except String ParseResult :=
  match urlsplit url dflt with
  | .error e => .error e
  | .ok r =>
    if r.scheme ∈ usesParams ∧ ';' ∈ r.path then
      let pp := splitparams r.path
      .ok ⟨r.scheme, r.netloc, pp.1, pp.2, r.query, r.fragment⟩
    else
      .ok ⟨r.scheme, r.netloc, r.path, [], r.query, r.fragment⟩

/-- Model of `urllib.parse.urlunsplit`. -/
def urlunsplit (scheme netloc url query fragment : List Char) : List Char :=
  let url :=
    if netloc ≠ [] ∨ (scheme ≠ [] ∧ scheme ∈ usesNetloc ∧ url.take 2 ≠ ['/', '/'])
    then
      let url := if url ≠ [] ∧ url.take 1 ≠ ['/'] then '/' :: url else url
      '/' :: '/' :: (netloc ++ url)
    else url
  let url := if scheme ≠ [] then scheme ++ ':' :: url else url
  let url := if query ≠ [] then url ++ '?' :: query else url
  if fragment ≠ [] then url ++ '#' :: fragment else url

/-- Model of `urllib.parse.urlunparse`. -/
def urlunparse (r : ParseResult) : List Char :=
  let url := if r.params ≠ [] then r.path ++ ';' :: r.params else r.path
  urlunsplit r.scheme r.netloc url r.query r.fragment

/-- One step of the segment resolution loop of `urljoin`
(`..` pops, `.` is dropped, anything else is appended). -/
def segStep (acc : List (List Char)) (seg : List Char) : List (List Char) :=
  if seg = ['.', '.'] then acc.dropLast
  else if seg = ['.'] then acc
  else acc ++ [seg]

/-- `segments[1:-1] = filter(None, segments[1:-1])`: drop empty segments
except in first and last position. -/
def middleFilter : List (List Char) → List (List Char)
  | [] => []
  | [a] => [a]
  | a :: b :: t =>
    a :: (((b :: t).dropLast.filter (fun x => x ≠ [])) ++ [(b :: t).getLastD []])

/-- Model of `urllib.parse.urljoin` for `str` input (CPython 3.11).
Raises (`.error`) exactly where `urlsplit` raises `ValueError`. -/
def urljoin (base url : List Char) : Except String (List Char) :=
  if base = [] then .ok url
  else if url = [] then .ok base
  else
    match urlparse base [] with
    | .error e => .error e
    | .ok b =>
    match urlparse url b.scheme with
    | .error e => .error e
    | .ok u =>
    if u.scheme ≠ b.scheme ∨ u.scheme ∉ usesRelative then .ok url
    else if u.scheme ∈ usesNetloc ∧ u.netloc ≠ [] then
      .ok (urlunparse ⟨u.scheme, u.netloc, u.path, u.params, u.query, u.fragment⟩)
    else
      let netloc := if u.scheme ∈ usesNetloc then b.netloc else u.netloc
      if u.path = [] ∧ u.params = [] then
        .ok (urlunparse ⟨u.scheme, netloc, b.path, b.params,
              (if u.query = [] then b.query else u.query), u.fragment⟩)
      else
        let baseParts := splitChar '/' b.path
        let baseParts :=
          if baseParts.getLastD [] ≠ [] then baseParts.dropLast else baseParts
        let segments :=
          if u.path.take 1 = ['/'] then splitChar '/' u.path
          else middleFilter (baseParts ++ splitChar '/' u.path)
        let resolved := segments.foldl segStep []
        let resolved :=
          if segments.getLastD [] = ['.'] ∨ segments.getLastD [] = ['.', '.']
          then resolved ++ [[]] else resolved
        let p := joinChar '/' resolved
        let p := if p = [] then ['/'] else p
        .ok (urlunparse ⟨u.scheme, netloc, p, u.params, u.query, u.fragment⟩)

/-! ## The three substitution patterns of `convert_markdown_urls` -/

/-- The literal prefix "http". -/
def httpPre : List Char := "http".toList

/-- The literal prefix "#". -/
def hashPre : List Char := "#".toList

/-- The literal prefix "mailto:". -/
def mailtoPre : List Char := "mailto:".toList

/-- The negative lookahead `(?!http|#|mailto:)` of the inline-link
pattern: `true` when the text at the current position starts with one of
the three literal alternatives. -/
def excludedInline (s : List Char) : Bool :=
  httpPre.isPrefixOf s || hashPre.isPrefixOf s || mailtoPre.isPrefixOf s

/-- The negative lookahead `(?!http|#)` of the image pattern
(no `mailto:` alternative). -/
def excludedImage (s : List Char) : Bool :=
  httpPre.isPrefixOf s || hashPre.isPrefixOf s

/-- The negative lookahead `(?!http|#|mailto:)` of the reference-style
pattern (same alternatives as the inline pattern). -/
def excludedRef (s : List Char) : Bool := excludedInline s

/-- Parse of `\[([^\]]+)\]\(([^)]+)\)` (the inline pattern with the
lookahead factored out): greedy `[^\]]+` and `[^)]+` stop at the first
`]` / `)`, which is exactly `splitFirst`.  Returns
(label, text after the opening paren, target, rest after the match).
The lookahead sits between `\(` and the target capture in the regex;
checking it before or after computing the pure capture yields the same
match, so it is applied on top of this parser in `matchInline`. -/
def matchInlineA :
    List Char → Option (List Char × List Char × List Char × List Char)
  | '[' :: r0 =>
    match splitFirst ']' r0 with
    | some (label, '(' :: r2) =>
      if label.isEmpty then none
      else
        match splitFirst ')' r2 with
        | some (target, r3) =>
          if target.isEmpty then none else some (label, r2, target, r3)
        | none => none
    | _ => none
  | _ => none

/-- Match of the full inline pattern
`\[([^\]]+)\]\((?!http|#|mailto:)([^)]+)\)` at the current position. -/
def matchInline (s : List Char) : Option (List Char × List Char × List Char) :=
  match matchInlineA s with
  | some (l, r2, t, r3) => if excludedInline r2 then none else some (l, t, r3)
  | none => none

/-- Parse of `!\[([^\]]*)\]\(([^)]+)\)` (the image pattern with the
lookahead factored out); the alt text may be empty (`[^\]]*`). -/
def matchImageA :
    List Char → Option (List Char × List Char × List Char × List Char)
  | '!' :: '[' :: r0 =>
    match splitFirst ']' r0 with
    | some (label, '(' :: r2) =>
      match splitFirst ')' r2 with
      | some (target, r3) =>
        if target.isEmpty then none else some (label, r2, target, r3)
      | none => none
    | _ => none
  | _ => none

/-- Match of the full image pattern `!\[([^\]]*)\]\((?!http|#)([^)]+)\)`
at the current position. -/
def matchImage (s : List Char) : Option (List Char × List Char × List Char) :=
  match matchImageA s with
  | some (l, r2, t, r3) => if excludedImage r2 then none else some (l, t, r3)
  | none => none

/-- Parse of `\[([^\]]+)\]:\s*([^\s]+)(.*)$` at a line start (the
reference-definition pattern with the lookahead factored out).  Greedy
`\s*` takes the maximal whitespace run (a failed lookahead or a missing
target cannot be rescued by backtracking into `\s*`, since `[^\s]+`
demands a non-whitespace first character); `.` does not match a newline,
and the following `$` (with `re.MULTILINE`) always succeeds at the end of
the maximal `.*` run.  Returns (label, text after the whitespace run,
target, trailing text, rest starting at the line-ending newline). -/
def matchRefA :
    List Char → Option (List Char × List Char × List Char × List Char × List Char)
  | '[' :: r0 =>
    match splitFirst ']' r0 with
    | some (label, ':' :: r2) =>
      if label.isEmpty then none
      else
        let r3 := r2.dropWhile pySpace
        let target := r3.takeWhile (fun c => !(pySpace c))
        if target.isEmpty then none
        else
          let r4 := r3.dropWhile (fun c => !(pySpace c))
          some (label, r3, target, r4.takeWhile (fun c => c ≠ '\n'),
                r4.dropWhile (fun c => c ≠ '\n'))
    | _ => none
  | _ => none

/-- Match of the full reference-definition pattern
`^\[([^\]]+)\]:\s*(?!http|#|mailto:)([^\s]+)(.*)$` at a line start. -/
def matchRef (s : List Char) :
    Option (List Char × List Char × List Char × List Char) :=
  match matchRefA s with
  | some (l, r3, t, tr, rest) =>
    if excludedRef r3 then none else some (l, t, tr, rest)
  | none => none

/-! ## The `re.sub` scanners

`re.sub` scans left to right, replacing each non-overlapping match and
resuming after it.  Every pattern above consumes at least one character,
so a fuel of `s.length` is always sufficient; the fuel-0 branch returns
the text unchanged and is never reached from the wrappers below. -/

/-- Scanner of pass 1, replacement
`f'[{m.group(1)}]({urljoin(base_url + "/", m.group(2))})'`; `b` is the
already-normalized base with the appended slash. -/
def subInlineGo (b : List Char) : Nat → List Char → Except String (List Char)
  | 0, s => .ok s
  | _ + 1, [] => .ok []
  | fuel + 1, c :: cs =>
    match matchInline (c :: cs) with
    | some (l, t, r) =>
      match urljoin b t with
      | .ok u =>
        match subInlineGo b fuel r with
        | .ok tail => .ok ('[' :: (l ++ ']' :: '(' :: (u ++ ')' :: tail)))
        | .error e => .error e
      | .error e => .error e
    | none =>
      match subInlineGo b fuel cs with
      | .ok tail => .ok (c :: tail)
      | .error e => .error e

/-- Pass 1: `re.sub` of the inline pattern over the whole text. -/
def subInline (b s : List Char) : Except String (List Char) :=
  subInlineGo b s.length s

/-- Scanner of pass 2, replacement
`f'![{m.group(1)}]({urljoin(base_url + "/", m.group(2))})'`. -/
def subImageGo (b : List Char) : Nat → List Char → Except String (List Char)
  | 0, s => .ok s
  | _ + 1, [] => .ok []
  | fuel + 1, c :: cs =>
    match matchImage (c :: cs) with
    | some (l, t, r) =>
      match urljoin b t with
      | .ok u =>
        match subImageGo b fuel r with
        | .ok tail => .ok ('!' :: '[' :: (l ++ ']' :: '(' :: (u ++ ')' :: tail)))
        | .error e => .error e
      | .error e => .error e
    | none =>
      match subImageGo b fuel cs with
      | .ok tail => .ok (c :: tail)
      | .error e => .error e

/-- Pass 2: `re.sub` of the image pattern over the whole text. -/
def subImage (b s : List Char) : Except String (List Char) :=
  subImageGo b s.length s

/-- Scanner of pass 3 (with `re.MULTILINE`), replacement
`f'[{m.group(1)}]: {urljoin(base_url + "/", m.group(2))}{m.group(3)}'`.
The `atStart` flag records whether the current position is the start of
the text or directly after a newline, where `^` matches. -/
def subRefGo (b : List Char) :
    Nat → Bool → List Char → Except String (List Char)
  | 0, _, s => .ok s
  | _ + 1, _, [] => .ok []
  | fuel + 1, atStart, c :: cs =>
    match (if atStart then matchRef (c :: cs) else none) with
    | some (l, t, tr, r) =>
      match urljoin b t with
      | .ok u =>
        match subRefGo b fuel false r with
        | .ok tail => .ok ('[' :: (l ++ ']' :: ':' :: ' ' :: (u ++ tr ++ tail)))
        | .error e => .error e
      | .error e => .error e
    | none =>
      match subRefGo b fuel (c == '\n') cs with
      | .ok tail => .ok (c :: tail)
      | .error e => .error e

/-- Pass 3: `re.sub` of the reference-definition pattern over the whole
text, `^` matching at the start of the text and after each newline. -/
def subRef (b s : List Char) : Except String (List Char) :=
  subRefGo b s.length true s

/-- Python `base_url.rstrip('/')`: remove ALL trailing slashes. -/
def stripSlashes (s : List Char) : List Char :=
  (s.reverse.dropWhile (fun c => c == '/')).reverse

/-- The spec instead says the normalization trims EXACTLY ONE trailing
slash.  This definition follows the spec's words and exists only to be
compared against `stripSlashes` (what the code does). -/
def trimOneSlash (s : List Char) : List Char :=
  if s.getLast? = some '/' then s.dropLast else s

/-- Model of `convert_markdown_urls(content, base_url)`: normalize the
base once, then apply the three passes in sequence, each over the entire
current text.  A `ValueError` escaping `urljoin` aborts the whole
function (`.error`). -/
def convert (content baseUrl : List Char) : Except String (List Char) :=
  let b := stripSlashes baseUrl ++ ['/']
  match subInline b content with
  | .ok r1 =>
    match subImage b r1 with
    | .ok r2 => subRef b r2
    | .error e => .error e
  | .error e => .error e

/-- `convert_markdown_urls` over `String`. -/
def convertStr (content baseUrl : String) : Except String String :=
  match convert content.toList baseUrl.toList with
  | .ok l => .ok (String.mk l)
  | .error e => .error e

/-! ## Decidable scanning predicates -/

/-- No position of the text matches the inline pattern. -/
def noInlineB : List Char → Bool
  | [] => true
  | c :: cs => (matchInline (c :: cs)).isNone && noInlineB cs

/-- No position of the text matches the image pattern. -/
def noImageB : List Char → Bool
  | [] => true
  | c :: cs => (matchImage (c :: cs)).isNone && noImageB cs

/-- No line-start position of the text matches the reference pattern. -/
def noRefB : Bool → List Char → Bool
  | _, [] => true
  | flag, c :: cs =>
    (if flag then (matchRef (c :: cs)).isNone else true) && noRefB (c == '\n') cs

/-- Every inline-shaped occurrence (lookahead ignored) has an
`http`-prefixed target. -/
def absInlineB : List Char → Bool
  | [] => true
  | c :: cs =>
    (match matchInlineA (c :: cs) with
     | some (_, _, t, _) => httpPre.isPrefixOf t
     | none => true) && absInlineB cs

/-- Every image-shaped occurrence has an `http`-prefixed target. -/
def absImageB : List Char → Bool
  | [] => true
  | c :: cs =>
    (match matchImageA (c :: cs) with
     | some (_, _, t, _) => httpPre.isPrefixOf t
     | none => true) && absImageB cs

/-- Every reference-definition-shaped occurrence at a line start has an
`http`-prefixed target. -/
def absRefB : Bool → List Char → Bool
  | _, [] => true
  | flag, c :: cs =>
    (if flag then
      (match matchRefA (c :: cs) with
       | some (_, _, t, _, _) => httpPre.isPrefixOf t
       | none => true)
     else true) && absRefB (c == '\n') cs

/-- An already-absolute document: every link, image and
reference-definition target starts with `http`. -/
def allAbsB (s : List Char) : Bool :=
  absInlineB s && absImageB s && absRefB true s

/-- `Except.isOk` as a plain definition. -/
def exOk {ε α : Type} : Except ε α → Bool
  | .ok _ => true
  | .error _ => false

/-! ## Model of the `main` entry point -/

/-- The console messages `main` can print, as abstract tags (the text of
each message is fixed in the source; only its identity matters to the
claims). -/
inductive Msg where
  | errNoBaseUrl
  | usage
  | errNoInputArg
  | errNotFound (path : String)
  | success (path : String)
  | errProcessing (e : String)
  deriving DecidableEq, Repr

/-- Split a path into (directory prefix including the slash, file name),
as `pathlib` sees the final component. -/
def fileNameSplit (p : List Char) : List Char × List Char :=
  match splitLast '/' p with
  | some (pre, suf) => (pre ++ ['/'], suf)
  | none => ([], p)

/-- `pathlib` stem/suffix of a file name: the suffix is the part from the
last dot when that dot is neither the first nor the last character. -/
def stemSuffix (name : List Char) : List Char × List Char :=
  match splitLast '.' name with
  | some (pre, suf) =>
    if pre ≠ [] ∧ suf ≠ [] then (pre, '.' :: suf) else (name, [])
  | none => (name, [])

/-- `input_file.with_stem(f"{input_file.stem}_converted")`. -/
def withConvertedStem (p : String) : String :=
  let fn := fileNameSplit p.toList
  let ss := stemSuffix fn.2
  String.mk (fn.1 ++ ss.1 ++ "_converted".toList ++ ss.2)

/-- Observable outcome of one run of `main`: process exit code, the
output file written (path and content), and the console messages. -/
structure MainOut where
  exitCode : Nat
  written : Option (String × String)
  console : List Msg
  deriving DecidableEq, Repr

/-- Model of `main()`: `baseUrl` is the `BASE_URL` environment value
(`none` when unset; Python's `if not base_url` also treats the empty
string as missing), `argv` is `sys.argv` (program name included), and
`fs` maps a path to the content of an existing file.  Checks happen in
source order: environment, argument count, file existence, then
read/convert/write with any exception leading to exit 1. -/
def runMain (baseUrl : Option String) (argv : List String)
    (fs : String → Option String) : MainOut :=
  match baseUrl with
  | none => ⟨1, none, [.errNoBaseUrl, .usage]⟩
  | some b =>
    if b = "" then ⟨1, none, [.errNoBaseUrl, .usage]⟩
    else if argv.length ≠ 2 then ⟨1, none, [.errNoInputArg, .usage]⟩
    else
      let input := argv.getD 1 ""
      match fs input with
      | none => ⟨1, none, [.errNotFound input]⟩
      | some content =>
        match convertStr content b with
        | .ok out =>
          ⟨0, some (withConvertedStem input, out),
            [.success (withConvertedStem input)]⟩
        | .error e => ⟨1, none, [.errProcessing e]⟩

/-! ## List helper lemmas -/

theorem splitFirst_append (d : Char) :
    ∀ (a b : List Char), d ∉ a → splitFirst d (a ++ d :: b) = some (a, b) := by
  intro a
  induction a with
  | nil => intro b _; simp [splitFirst]
  | cons x xs ih =>
    intro b hd
    have hx : ¬ x = d := by
      intro h
      exact hd (by simp [h])
    have ihr := ih b (fun h => hd (List.mem_cons_of_mem _ h))
    simp only [List.cons_append, splitFirst, if_neg hx]
    rw [show xs.append (d :: b) = xs ++ d :: b from rfl, ihr]
    rfl

theorem splitFirst_parts (d : Char) :
    ∀ (s a b : List Char), splitFirst d s = some (a, b) → s = a ++ d :: b ∧ d ∉ a := by
  intro s
  induction s with
  | nil => intro a b h; simp [splitFirst] at h
  | cons c cs ih =>
    intro a b h
    by_cases hc : c = d
    · subst hc
      simp [splitFirst] at h
      obtain ⟨rfl, rfl⟩ := h
      exact ⟨rfl, by simp⟩
    · simp only [splitFirst, if_neg hc] at h
      cases hsp : splitFirst d cs with
      | none => rw [hsp] at h; simp at h
      | some p =>
        rw [hsp] at h
        simp only [Option.map_some', Option.some_inj, Prod.mk.injEq] at h
        obtain ⟨hs, hd⟩ := ih p.1 p.2 (by rw [hsp])
        obtain ⟨rfl, rfl⟩ := h
        constructor
        · simp [hs]
        · intro hmem
          rcases List.mem_cons.mp hmem with h1 | h1
          · exact hc h1.symm
          · exact hd h1

theorem isPrefixOf_append_right :
    ∀ (p a b : List Char), p.isPrefixOf a = true → p.isPrefixOf (a ++ b) = true := by
  intro p
  induction p with
  | nil => intros; simp [List.isPrefixOf]
  | cons x xs ih =>
    intro a b h
    cases a with
    | nil => simp [List.isPrefixOf] at h
    | cons y ys =>
      simp only [List.isPrefixOf, Bool.and_eq_true] at h
      simp only [List.cons_append, List.isPrefixOf, Bool.and_eq_true]
      exact ⟨h.1, ih ys b h.2⟩

theorem isPrefixOf_stop (q : Char → Bool) :
    ∀ (p t : List Char) (c : Char) (r : List Char), p.all q = true → q c = false →
      p.isPrefixOf (t ++ c :: r) = p.isPrefixOf t := by
  intro p
  induction p with
  | nil => intros; simp [List.isPrefixOf]
  | cons x xs ih =>
    intro t c r hall hc
    simp only [List.all_cons, Bool.and_eq_true] at hall
    cases t with
    | nil =>
      show (x :: xs).isPrefixOf (c :: r) = (x :: xs).isPrefixOf []
      have hxc : (x == c) = false := by
        cases hbe : x == c
        · rfl
        · exfalso
          have : x = c := eq_of_beq hbe
          rw [← this] at hc
          rw [hall.1] at hc
          cases hc
      simp [List.isPrefixOf, hxc]
    | cons y ys =>
      show (x == y && xs.isPrefixOf (ys ++ c :: r)) = (x == y && xs.isPrefixOf ys)
      rw [ih ys c r hall.2 hc]

theorem dropWhile_append_all (p : Char → Bool) :
    ∀ (a b : List Char), a.all p = true → (a ++ b).dropWhile p = b.dropWhile p := by
  intro a
  induction a with
  | nil => intro b _; rfl
  | cons x xs ih =>
    intro b h
    simp only [List.all_cons, Bool.and_eq_true] at h
    simp [List.dropWhile_cons, h.1, ih b h.2]

theorem takeWhile_append_all (p : Char → Bool) :
    ∀ (a b : List Char), a.all p = true → (a ++ b).takeWhile p = a ++ b.takeWhile p := by
  intro a
  induction a with
  | nil => intro b _; rfl
  | cons x xs ih =>
    intro b h
    simp only [List.all_cons, Bool.and_eq_true] at h
    simp [List.takeWhile_cons, h.1, ih b h.2]

theorem takeWhile_all (p : Char → Bool) (a : List Char) (h : a.all p = true) :
    a.takeWhile p = a := by
  have := takeWhile_append_all p a [] h
  simpa using this

theorem dropWhile_all (p : Char → Bool) (a : List Char) (h : a.all p = true) :
    a.dropWhile p = [] := by
  have := dropWhile_append_all p a [] h
  simpa using this

theorem dropWhile_head_false (p : Char → Bool) (c : Char) (cs : List Char)
    (h : p c = false) : (c :: cs).dropWhile p = c :: cs := by
  simp [List.dropWhile_cons, h]

theorem takeWhile_head_false (p : Char → Bool) (c : Char) (cs : List Char)
    (h : p c = false) : (c :: cs).takeWhile p = [] := by
  simp [List.takeWhile_cons, h]

theorem stripSlashes_snoc (b : List Char) :
    stripSlashes (b ++ ['/']) = stripSlashes b := by
  simp [stripSlashes, List.dropWhile_cons]

/-! ## Matcher lemmas -/

theorem matchImageA_none_head (c : Char) (cs : List Char) (h : ¬ c = '!') :
    matchImageA (c :: cs) = none := by
  unfold matchImageA
  split
  · rename_i r0 heq
    injection heq with h1 h2
    exact absurd h1 h
  · rfl

theorem matchRefA_none_head (c : Char) (cs : List Char) (h : ¬ c = '[') :
    matchRefA (c :: cs) = none := by
  unfold matchRefA
  split
  · rename_i r0 heq
    injection heq with h1 h2
    exact absurd h1 h
  · rfl

theorem matchInlineA_some (s l r2 t r3 : List Char)
    (h : matchInlineA s = some (l, r2, t, r3)) : r2 = t ++ ')' :: r3 := by
  unfold matchInlineA at h
  split at h
  · split at h
    · split at h
      · exact absurd h (by simp)
      · split at h
        · split at h
          · exact absurd h (by simp)
          · rename_i hsp htne
            simp only [Option.some_inj, Prod.mk.injEq] at h
            obtain ⟨rfl, rfl, rfl, rfl⟩ := h
            exact (splitFirst_parts ')' _ _ _ hsp).1
        · exact absurd h (by simp)
    · exact absurd h (by simp)
  · exact absurd h (by simp)

theorem matchImageA_some (s l r2 t r3 : List Char)
    (h : matchImageA s = some (l, r2, t, r3)) : r2 = t ++ ')' :: r3 := by
  unfold matchImageA at h
  split at h
  · split at h
    · split at h
      · rename_i hsp
        split at h
        · exact absurd h (by simp)
        · simp only [Option.some_inj, Prod.mk.injEq] at h
          obtain ⟨rfl, rfl, rfl, rfl⟩ := h
          exact (splitFirst_parts ')' _ _ _ hsp).1
      · exact absurd h (by simp)
    · exact absurd h (by simp)
  · exact absurd h (by simp)

theorem matchRefA_some (s l r3 t tr rest : List Char)
    (h : matchRefA s = some (l, r3, t, tr, rest)) :
    t = r3.takeWhile (fun c => !(pySpace c)) := by
  unfold matchRefA at h
  split at h
  · split at h
    · split at h
      · exact absurd h (by simp)
      · dsimp only [] at h
        split at h
        · exact absurd h (by simp)
        · simp only [Option.some_inj, Prod.mk.injEq] at h
          obtain ⟨rfl, rfl, rfl, rfl, rfl⟩ := h
          rfl
    · exact absurd h (by simp)
  · exact absurd h (by simp)

/-! ## Scanner lemmas -/

theorem subInlineGo_nil (b : List Char) (f : Nat) : subInlineGo b f [] = .ok [] := by
  cases f <;> rfl

theorem subImageGo_nil (b : List Char) (f : Nat) : subImageGo b f [] = .ok [] := by
  cases f <;> rfl

theorem subRefGo_nil (b : List Char) (f : Nat) (flag : Bool) :
    subRefGo b f flag [] = .ok [] := by
  cases f <;> rfl

theorem subInlineGo_id (b : List Char) :
    ∀ (f : Nat) (s : List Char), noInlineB s = true → subInlineGo b f s = .ok s := by
  intro f
  induction f with
  | zero => intro s _; rfl
  | succ f ih =>
    intro s h
    cases s with
    | nil => rfl
    | cons c cs =>
      simp only [noInlineB, Bool.and_eq_true] at h
      have hm : matchInline (c :: cs) = none := by
        cases hmm : matchInline (c :: cs) with
        | none => rfl
        | some v => rw [hmm] at h; simp at h
      simp only [subInlineGo, hm, ih cs h.2]

theorem subImageGo_id (b : List Char) :
    ∀ (f : Nat) (s : List Char), noImageB s = true → subImageGo b f s = .ok s := by
  intro f
  induction f with
  | zero => intro s _; rfl
  | succ f ih =>
    intro s h
    cases s with
    | nil => rfl
    | cons c cs =>
      simp only [noImageB, Bool.and_eq_true] at h
      have hm : matchImage (c :: cs) = none := by
        cases hmm : matchImage (c :: cs) with
        | none => rfl
        | some v => rw [hmm] at h; simp at h
      simp only [subImageGo, hm, ih cs h.2]

theorem subRefGo_id (b : List Char) :
    ∀ (f : Nat) (flag : Bool) (s : List Char), noRefB flag s = true →
      subRefGo b f flag s = .ok s := by
  intro f
  induction f with
  | zero => intro flag s _; rfl
  | succ f ih =>
    intro flag s h
    cases s with
    | nil => rfl
    | cons c cs =>
      simp only [noRefB, Bool.and_eq_true] at h
      have hm : (if flag then matchRef (c :: cs) else none) = none := by
        cases flag
        · rfl
        · simp only [if_true]
          cases hmm : matchRef (c :: cs) with
          | none => rfl
          | some v => rw [hmm] at h; simp at h
      simp only [subRefGo, hm, ih (c == '\n') cs h.2]

theorem noImageB_of_no_bang : ∀ (s : List Char), '!' ∉ s → noImageB s = true := by
  intro s
  induction s with
  | nil => intro _; rfl
  | cons c cs ih =>
    intro h
    have hc : ¬ c = '!' := fun he => h (by simp [he])
    have hm : matchImage (c :: cs) = none := by
      simp [matchImage, matchImageA_none_head c cs hc]
    simp [noImageB, hm, ih (fun hmem => h (List.mem_cons_of_mem _ hmem))]

theorem noRefB_of_no_bracket :
    ∀ (s : List Char), '[' ∉ s → ∀ flag, noRefB flag s = true := by
  intro s
  induction s with
  | nil => intro _ flag; rfl
  | cons c cs ih =>
    intro h flag
    have hc : ¬ c = '[' := fun he => h (by simp [he])
    have hm : matchRef (c :: cs) = none := by
      simp [matchRef, matchRefA_none_head c cs hc]
    cases flag <;>
      simp [noRefB, hm, ih (fun hmem => h (List.mem_cons_of_mem _ hmem))]

theorem subInlineGo_abs (b : List Char) :
    ∀ (f : Nat) (s : List Char), absInlineB s = true → subInlineGo b f s = .ok s := by
  intro f
  induction f with
  | zero => intro s _; rfl
  | succ f ih =>
    intro s h
    cases s with
    | nil => rfl
    | cons c cs =>
      simp only [absInlineB, Bool.and_eq_true] at h
      have hm : matchInline (c :: cs) = none := by
        cases hA : matchInlineA (c :: cs) with
        | none => simp [matchInline, hA]
        | some q =>
          obtain ⟨l, r2, t, r3⟩ := q
          have h1 : httpPre.isPrefixOf t = true := by
            have := h.1
            rw [hA] at this
            exact this
          have hr2 : r2 = t ++ ')' :: r3 := matchInlineA_some (c :: cs) l r2 t r3 hA
          have h2 : httpPre.isPrefixOf r2 = true := by
            rw [hr2]
            exact isPrefixOf_append_right httpPre t (')' :: r3) h1
          simp [matchInline, hA, excludedInline, h2]
      simp only [subInlineGo, hm, ih cs h.2]

theorem subImageGo_abs (b : List Char) :
    ∀ (f : Nat) (s : List Char), absImageB s = true → subImageGo b f s = .ok s := by
  intro f
  induction f with
  | zero => intro s _; rfl
  | succ f ih =>
    intro s h
    cases s with
    | nil => rfl
    | cons c cs =>
      simp only [absImageB, Bool.and_eq_true] at h
      have hm : matchImage (c :: cs) = none := by
        cases hA : matchImageA (c :: cs) with
        | none => simp [matchImage, hA]
        | some q =>
          obtain ⟨l, r2, t, r3⟩ := q
          have h1 : httpPre.isPrefixOf t = true := by
            have := h.1
            rw [hA] at this
            exact this
          have hr2 : r2 = t ++ ')' :: r3 := matchImageA_some (c :: cs) l r2 t r3 hA
          have h2 : httpPre.isPrefixOf r2 = true := by
            rw [hr2]
            exact isPrefixOf_append_right httpPre t (')' :: r3) h1
          simp [matchImage, hA, excludedImage, h2]
      simp only [subImageGo, hm, ih cs h.2]

theorem subRefGo_abs (b : List Char) :
    ∀ (f : Nat) (flag : Bool) (s : List Char), absRefB flag s = true →
      subRefGo b f flag s = .ok s := by
  intro f
  induction f with
  | zero => intro flag s _; rfl
  | succ f ih =>
    intro flag s h
    cases s with
    | nil => rfl
    | cons c cs =>
      simp only [absRefB, Bool.and_eq_true] at h
      have hm : (if flag then matchRef (c :: cs) else none) = none := by
        cases flag
        · rfl
        · simp only [if_true]
          cases hA : matchRefA (c :: cs) with
          | none => simp [matchRef, hA]
          | some q =>
            obtain ⟨l, r3, t, tr, rest⟩ := q
            have h1 : httpPre.isPrefixOf t = true := by
              have := h.1
              simp only [if_true] at this
              rw [hA] at this
              exact this
            have ht : t = r3.takeWhile (fun c => !(pySpace c)) :=
              matchRefA_some (c :: cs) l r3 t tr rest hA
            have h2 : httpPre.isPrefixOf r3 = true := by
              have hpre : t <+: r3 := ht ▸ List.takeWhile_prefix _
              obtain ⟨u, hu⟩ := hpre
              rw [← hu]
              exact isPrefixOf_append_right httpPre t u h1
            simp [matchRef, hA, excludedRef, excludedInline, h2]
      simp only [subRefGo, hm, ih (c == '\n') cs h.2]

/-! ## Error classification: the only failures are the `ValueError`s of
`urlsplit` -/

theorem urlsplit_error (u d : List Char) (e : String)
    (h : urlsplit u d = .error e) : e = msgInvalidIPv6 ∨ e = msgBadNetloc := by
  unfold urlsplit at h
  dsimp only [] at h
  split at h
  · split at h
    · injection h with he
      exact Or.inl he.symm
    · split at h
      · injection h with he
        exact Or.inr he.symm
      · exact absurd h (by simp)
  · exact absurd h (by simp)

theorem urlparse_error (u d : List Char) (e : String)
    (h : urlparse u d = .error e) : e = msgInvalidIPv6 ∨ e = msgBadNetloc := by
  unfold urlparse at h
  cases hs : urlsplit u d with
  | error e2 =>
    rw [hs] at h
    injection h with he
    exact he ▸ urlsplit_error u d e2 hs
  | ok r =>
    rw [hs] at h
    dsimp only [] at h
    split at h <;> simp at h

theorem urljoin_error (bu u : List Char) (e : String)
    (h : urljoin bu u = .error e) : e = msgInvalidIPv6 ∨ e = msgBadNetloc := by
  unfold urljoin at h
  split at h
  · exact absurd h (by simp)
  · split at h
    · exact absurd h (by simp)
    · cases hb : urlparse bu [] with
      | error e2 =>
        rw [hb] at h
        injection h with he
        exact he ▸ urlparse_error bu [] e2 hb
      | ok pb =>
        rw [hb] at h
        dsimp only [] at h
        cases hu2 : urlparse u pb.scheme with
        | error e2 =>
          rw [hu2] at h
          injection h with he
          exact he ▸ urlparse_error u pb.scheme e2 hu2
        | ok pu =>
          rw [hu2] at h
          dsimp only [] at h
          split at h
          · simp at h
          · split at h
            · simp at h
            · split at h
              · simp at h
              · simp at h

theorem subInlineGo_error (b : List Char) :
    ∀ (f : Nat) (s : List Char) (e : String), subInlineGo b f s = .error e →
      e = msgInvalidIPv6 ∨ e = msgBadNetloc := by
  intro f
  induction f with
  | zero => intro s e h; simp [subInlineGo] at h
  | succ f ih =>
    intro s e h
    cases s with
    | nil => simp [subInlineGo] at h
    | cons c cs =>
      cases hm : matchInline (c :: cs) with
      | none =>
        simp only [subInlineGo, hm] at h
        cases hr : subInlineGo b f cs with
        | ok tail => rw [hr] at h; simp at h
        | error e2 =>
          rw [hr] at h
          injection h with he
          exact he ▸ ih cs e2 hr
      | some v =>
        obtain ⟨l, t, r⟩ := v
        simp only [subInlineGo, hm] at h
        cases hu : urljoin b t with
        | error e2 =>
          rw [hu] at h
          injection h with he
          exact he ▸ urljoin_error b t e2 hu
        | ok uu =>
          rw [hu] at h
          cases hr : subInlineGo b f r with
          | ok tail => rw [hr] at h; simp at h
          | error e2 =>
            rw [hr] at h
            injection h with he
            exact he ▸ ih r e2 hr

theorem subImageGo_error (b : List Char) :
    ∀ (f : Nat) (s : List Char) (e : String), subImageGo b f s = .error e →
      e = msgInvalidIPv6 ∨ e = msgBadNetloc := by
  intro f
  induction f with
  | zero => intro s e h; simp [subImageGo] at h
  | succ f ih =>
    intro s e h
    cases s with
    | nil => simp [subImageGo] at h
    | cons c cs =>
      cases hm : matchImage (c :: cs) with
      | none =>
        simp only [subImageGo, hm] at h
        cases hr : subImageGo b f cs with
        | ok tail => rw [hr] at h; simp at h
        | error e2 =>
          rw [hr] at h
          injection h with he
          exact he ▸ ih cs e2 hr
      | some v =>
        obtain ⟨l, t, r⟩ := v
        simp only [subImageGo, hm] at h
        cases hu : urljoin b t with
        | error e2 =>
          rw [hu] at h
          injection h with he
          exact he ▸ urljoin_error b t e2 hu
        | ok uu =>
          rw [hu] at h
          cases hr : subImageGo b f r with
          | ok tail => rw [hr] at h; simp at h
          | error e2 =>
            rw [hr] at h
            injection h with he
            exact he ▸ ih r e2 hr

theorem subRefGo_error (b : List Char) :
    ∀ (f : Nat) (flag : Bool) (s : List Char) (e : String),
      subRefGo b f flag s = .error e →
      e = msgInvalidIPv6 ∨ e = msgBadNetloc := by
  intro f
  induction f with
  | zero => intro flag s e h; simp [subRefGo] at h
  | succ f ih =>
    intro flag s e h
    cases s with
    | nil => simp [subRefGo] at h
    | cons c cs =>
      cases hm : (if flag then matchRef (c :: cs) else none) with
      | none =>
        simp only [subRefGo, hm] at h
        cases hr : subRefGo b f (c == '\n') cs with
        | ok tail => rw [hr] at h; simp at h
        | error e2 =>
          rw [hr] at h
          injection h with he
          exact he ▸ ih (c == '\n') cs e2 hr
      | some v =>
        obtain ⟨l, t, tr, r⟩ := v
        simp only [subRefGo, hm] at h
        cases hu : urljoin b t with
        | error e2 =>
          rw [hu] at h
          injection h with he
          exact he ▸ urljoin_error b t e2 hu
        | ok uu =>
          rw [hu] at h
          cases hr : subRefGo b f false r with
          | ok tail => rw [hr] at h; simp at h
          | error e2 =>
            rw [hr] at h
            injection h with he
            exact he ▸ ih false r e2 hr

theorem convert_error (c bu : List Char) (e : String)
    (h : convert c bu = .error e) : e = msgInvalidIPv6 ∨ e = msgBadNetloc := by
  unfold convert at h
  dsimp only [] at h
  cases h1 : subInline (stripSlashes bu ++ ['/']) c with
  | error e2 =>
    rw [h1] at h
    injection h with he
    exact he ▸ subInlineGo_error _ _ _ _ h1
  | ok r1 =>
    rw [h1] at h
    dsimp only [] at h
    cases h2 : subImage (stripSlashes bu ++ ['/']) r1 with
    | error e2 =>
      rw [h2] at h
      injection h with he
      exact he ▸ subImageGo_error _ _ _ _ h2
    | ok r2 =>
      rw [h2] at h
      exact subRefGo_error _ _ _ _ _ h

/-! ## Single-match composition lemmas -/

theorem excludedInline_append_paren (t r : List Char) :
    excludedInline (t ++ ')' :: r) = excludedInline t := by
  unfold excludedInline
  have hq : ∀ p : List Char, p.all (fun c => !(c == ')')) = true →
      p.isPrefixOf (t ++ ')' :: r) = p.isPrefixOf t := fun p hp =>
    isPrefixOf_stop _ p t ')' r hp (by simp)
  rw [hq httpPre (by decide), hq hashPre (by decide), hq mailtoPre (by decide)]

theorem matchInline_link (l t r : List Char) (hl : l ≠ []) (hlb : ']' ∉ l)
    (ht : t ≠ []) (htp : ')' ∉ t) (hex : excludedInline t = false) :
    matchInline ('[' :: (l ++ ']' :: '(' :: (t ++ ')' :: r)))
      = some (l, t, r) := by
  have hsp1 : splitFirst ']' (l ++ ']' :: '(' :: (t ++ ')' :: r))
      = some (l, '(' :: (t ++ ')' :: r)) := splitFirst_append ']' l _ hlb
  have hsp2 : splitFirst ')' (t ++ ')' :: r) = some (t, r) :=
    splitFirst_append ')' t r htp
  have hle : l.isEmpty = false := by
    cases l with
    | nil => exact absurd rfl hl
    | cons a as => rfl
  have hte : t.isEmpty = false := by
    cases t with
    | nil => exact absurd rfl ht
    | cons a as => rfl
  have hexr : excludedInline (t ++ ')' :: r) = false := by
    rw [excludedInline_append_paren t r]
    exact hex
  simp [matchInline, matchInlineA, hsp1, hsp2, hle, hte, hexr]

theorem subInline_single (b l t U : List Char) (hl : l ≠ []) (hlb : ']' ∉ l)
    (ht : t ≠ []) (htp : ')' ∉ t) (hex : excludedInline t = false)
    (hU : urljoin b t = .ok U) :
    subInline b ('[' :: (l ++ ']' :: '(' :: (t ++ [')'])))
      = .ok ('[' :: (l ++ ']' :: '(' :: (U ++ [')']))) := by
  have hm := matchInline_link l t [] hl hlb ht htp hex
  unfold subInline
  simp only [List.length_cons]
  simp only [subInlineGo, hm, hU, subInlineGo_nil]

theorem matchRef_of_paren (l X : List Char) (hlb : ']' ∉ l) :
    matchRef ('[' :: (l ++ ']' :: '(' :: X)) = none := by
  have hsp : splitFirst ']' (l ++ ']' :: '(' :: X) = some (l, '(' :: X) :=
    splitFirst_append ']' l _ hlb
  simp [matchRef, matchRefA, hsp]

/-- After pass 1 rewrites a lone inline link, passes 2 and 3 leave the
result untouched and the whole of `convert_markdown_urls` produces the
single rewritten link. -/
theorem convert_inline_link (l t U base : List Char)
    (hl : l ≠ []) (hlb : ']' ∉ l) (hlo : '[' ∉ l) (hlg : '!' ∉ l)
    (ht : t ≠ []) (htp : ')' ∉ t) (hex : excludedInline t = false)
    (hU : urljoin (stripSlashes base ++ ['/']) t = .ok U)
    (hUo : '[' ∉ U) (hUg : '!' ∉ U) :
    convert ('[' :: (l ++ ']' :: '(' :: (t ++ [')']))) base
      = .ok ('[' :: (l ++ ']' :: '(' :: (U ++ [')']))) := by
  have h1 := subInline_single (stripSlashes base ++ ['/']) l t U hl hlb ht htp hex hU
  have hnb : '!' ∉ ('[' :: (l ++ ']' :: '(' :: (U ++ [')']))) := by
    intro hmem
    simp only [List.mem_cons, List.mem_append, List.mem_singleton] at hmem
    rcases hmem with h | h | h | h | h | h
    · exact absurd h (by decide)
    · exact hlg h
    · exact absurd h (by decide)
    · exact absurd h (by decide)
    · exact hUg h
    · exact absurd h (by decide)
  have h2 : subImage (stripSlashes base ++ ['/'])
      ('[' :: (l ++ ']' :: '(' :: (U ++ [')'])))
      = .ok ('[' :: (l ++ ']' :: '(' :: (U ++ [')']))) :=
    subImageGo_id _ _ _ (noImageB_of_no_bang _ hnb)
  have hno : '[' ∉ (l ++ ']' :: '(' :: (U ++ [')'])) := by
    intro hmem
    simp only [List.mem_cons, List.mem_append, List.mem_singleton] at hmem
    rcases hmem with h | h | h | h | h
    · exact hlo h
    · exact absurd h (by decide)
    · exact absurd h (by decide)
    · exact hUo h
    · exact absurd h (by decide)
  have hrb : noRefB true ('[' :: (l ++ ']' :: '(' :: (U ++ [')']))) = true := by
    simp [noRefB, matchRef_of_paren l (U ++ [')']) hlb,
      noRefB_of_no_bracket _ hno]
  have h3 : subRef (stripSlashes base ++ ['/'])
      ('[' :: (l ++ ']' :: '(' :: (U ++ [')'])))
      = .ok ('[' :: (l ++ ']' :: '(' :: (U ++ [')']))) :=
    subRefGo_id _ _ _ _ hrb
  unfold convert
  dsimp only []
  rw [h1]
  dsimp only []
  rw [h2]
  dsimp only []
  exact h3

theorem matchRef_def (l ws t tr : List Char)
    (hl : l ≠ []) (hlb : ']' ∉ l)
    (hws : ws.all pySpace = true)
    (ht : t ≠ []) (hts : t.all (fun c => !(pySpace c)) = true)
    (hex : excludedRef (t ++ tr) = false)
    (htr : ∀ d, tr.head? = some d → pySpace d = true)
    (hnl : '\n' ∉ tr) :
    matchRef ('[' :: (l ++ ']' :: ':' :: (ws ++ (t ++ tr))))
      = some (l, t, tr, []) := by
  have hsp : splitFirst ']' (l ++ ']' :: ':' :: (ws ++ (t ++ tr)))
      = some (l, ':' :: (ws ++ (t ++ tr))) := splitFirst_append ']' l _ hlb
  have hle : l.isEmpty = false := by
    cases l with
    | nil => exact absurd rfl hl
    | cons a as => rfl
  obtain ⟨t0, t', rfl⟩ : ∃ t0 t', t = t0 :: t' := by
    cases t with
    | nil => exact absurd rfl ht
    | cons a as => exact ⟨a, as, rfl⟩
  have hts' := hts
  simp only [List.all_cons, Bool.and_eq_true] at hts'
  have ht0 : pySpace t0 = false := by
    cases hps : pySpace t0
    · rfl
    · rw [hps] at hts'
      simp at hts'
  have hr3 : (ws ++ ((t0 :: t') ++ tr)).dropWhile pySpace = (t0 :: t') ++ tr := by
    rw [dropWhile_append_all pySpace ws _ hws]
    exact dropWhile_head_false pySpace t0 (t' ++ tr) ht0
  have htw : ((t0 :: t') ++ tr).takeWhile (fun c => !(pySpace c)) = t0 :: t' := by
    rw [takeWhile_append_all _ _ _ hts]
    cases tr with
    | nil => simp
    | cons d tl =>
      rw [takeWhile_head_false _ d tl (by simp [htr d rfl])]
      simp
  have hdw : ((t0 :: t') ++ tr).dropWhile (fun c => !(pySpace c)) = tr := by
    rw [dropWhile_append_all _ _ _ hts]
    cases tr with
    | nil => rfl
    | cons d tl =>
      exact dropWhile_head_false _ d tl (by simp [htr d rfl])
  have htrall : tr.all (fun c => decide (c ≠ '\n')) = true := by
    rw [List.all_eq_true]
    intro c hc
    exact decide_eq_true (fun he => hnl (he ▸ hc))
  have httr : tr.takeWhile (fun c : Char => c ≠ '\n') = tr :=
    takeWhile_all _ tr htrall
  have hdtr : tr.dropWhile (fun c : Char => c ≠ '\n') = [] :=
    dropWhile_all _ tr htrall
  have hA : matchRefA ('[' :: (l ++ ']' :: ':' :: (ws ++ ((t0 :: t') ++ tr))))
      = some (l, (t0 :: t') ++ tr, t0 :: t', tr, []) := by
    simp only [matchRefA, hsp]
    rw [hr3, htw, hdw, httr, hdtr]
    simp [hle]
  unfold matchRef
  rw [hA]
  have hex' : excludedInline (t0 :: (t' ++ tr)) = false := by
    rw [← List.cons_append]
    exact hex
  simp [excludedRef, hex']

theorem subRef_single (b l ws t tr U : List Char)
    (hl : l ≠ []) (hlb : ']' ∉ l)
    (hws : ws.all pySpace = true)
    (ht : t ≠ []) (hts : t.all (fun c => !(pySpace c)) = true)
    (hex : excludedRef (t ++ tr) = false)
    (htr : ∀ d, tr.head? = some d → pySpace d = true)
    (hnl : '\n' ∉ tr)
    (hU : urljoin b t = .ok U) :
    subRef b ('[' :: (l ++ ']' :: ':' :: (ws ++ (t ++ tr))))
      = .ok ('[' :: (l ++ ']' :: ':' :: ' ' :: (U ++ tr))) := by
  have hm := matchRef_def l ws t tr hl hlb hws ht hts hex htr hnl
  unfold subRef
  simp only [List.length_cons]
  simp only [subRefGo, if_true, hm, hU, subRefGo_nil]
  simp

/-- When no position of the text matches any of the three patterns, all
three passes are the identity. -/
theorem convert_id_of_nomatch (content : List Char)
    (h1 : noInlineB content = true) (h2 : noImageB content = true)
    (h3 : noRefB true content = true) :
    ∀ b, convert content b = .ok content := by
  intro b
  have e1 : subInline (stripSlashes b ++ ['/']) content = .ok content :=
    subInlineGo_id _ _ _ h1
  have e2 : subImage (stripSlashes b ++ ['/']) content = .ok content :=
    subImageGo_id _ _ _ h2
  have e3 : subRef (stripSlashes b ++ ['/']) content = .ok content :=
    subRefGo_id _ _ _ _ h3
  unfold convert
  dsimp only []
  rw [e1]
  dsimp only []
  rw [e2]
  dsimp only []
  exact e3

theorem excludedImage_append_paren (t r : List Char) :
    excludedImage (t ++ ')' :: r) = excludedImage t := by
  unfold excludedImage
  have hq : ∀ p : List Char, p.all (fun c => !(c == ')')) = true →
      p.isPrefixOf (t ++ ')' :: r) = p.isPrefixOf t := fun p hp =>
    isPrefixOf_stop _ p t ')' r hp (by simp)
  rw [hq httpPre (by decide), hq hashPre (by decide)]

theorem matchImage_link (l t r : List Char) (hlb : ']' ∉ l)
    (ht : t ≠ []) (htp : ')' ∉ t) (hex : excludedImage t = false) :
    matchImage ('!' :: '[' :: (l ++ ']' :: '(' :: (t ++ ')' :: r)))
      = some (l, t, r) := by
  have hsp1 : splitFirst ']' (l ++ ']' :: '(' :: (t ++ ')' :: r))
      = some (l, '(' :: (t ++ ')' :: r)) := splitFirst_append ']' l _ hlb
  have hsp2 : splitFirst ')' (t ++ ')' :: r) = some (t, r) :=
    splitFirst_append ')' t r htp
  have hte : t.isEmpty = false := by
    cases t with
    | nil => exact absurd rfl ht
    | cons a as => rfl
  have hexr : excludedImage (t ++ ')' :: r) = false := by
    rw [excludedImage_append_paren t r]
    exact hex
  simp [matchImage, matchImageA, hsp1, hsp2, hte, hexr]

theorem subImage_single (b l t U : List Char) (hlb : ']' ∉ l)
    (ht : t ≠ []) (htp : ')' ∉ t) (hex : excludedImage t = false)
    (hU : urljoin b t = .ok U) :
    subImage b ('!' :: '[' :: (l ++ ']' :: '(' :: (t ++ [')'])))
      = .ok ('!' :: '[' :: (l ++ ']' :: '(' :: (U ++ [')']))) := by
  have hm := matchImage_link l t [] hlb ht htp hex
  unfold subImage
  simp only [List.length_cons]
  have hnone : matchImage ('!' :: '[' :: (l ++ ']' :: '(' :: (t ++ [')'])))
      = some (l, t, []) := hm
  simp only [subImageGo, hnone, hU, subImageGo_nil]

/-- `urljoin` returns any `mailto:` URL unchanged: the parsed scheme
`mailto` is not in `uses_relative`, so the join gives the URL back for
every base whose parse succeeds. -/
theorem urljoin_mailto (b : List Char) (pb : ParseResult)
    (hb : urlparse b [] = .ok pb) :
    urljoin b ("mailto:a@b.com".toList) = .ok ("mailto:a@b.com".toList) := by
  unfold urljoin
  by_cases hbe : b = []
  · simp [hbe]
  · rw [if_neg hbe, if_neg (by decide : ¬ ("mailto:a@b.com".toList
      = ([] : List Char))), hb]
    dsimp only []
    have hparse : urlparse ("mailto:a@b.com".toList) pb.scheme
        = .ok ⟨"mailto".toList, [], "a@b.com".toList, [], [], []⟩ := rfl
    rw [hparse]
    dsimp only []
    have hcond : (("mailto".toList : List Char) ≠ pb.scheme ∨
        ("mailto".toList : List Char) ∉ usesRelative) := Or.inr (by decide)
    rw [if_pos hcond]

/-! ## Claim theorems -/

/-- C1: every inline link whose target is not excluded by the
`http`/`#`/`mailto:` prefix test is rewritten by replacing the target
with the relative-URL resolution (urljoin) of the target against the
normalized base followed by a slash, the label passing through
unchanged; concretely, `[x](a/b.md)` with base `https://example.com`
yields `[x](https://example.com/a/b.md)`, and `..`, `.` and leading `/`
targets resolve the standard way. -/
theorem c1_inline_links_resolved :
    (∀ (label target base resolved : List Char),
        label ≠ [] → ']' ∉ label → '[' ∉ label → '!' ∉ label →
        target ≠ [] → ')' ∉ target →
        excludedInline target = false →
        urljoin (stripSlashes base ++ ['/']) target = .ok resolved →
        '[' ∉ resolved → '!' ∉ resolved →
        convert ('[' :: (label ++ ']' :: '(' :: (target ++ [')']))) base
          = .ok ('[' :: (label ++ ']' :: '(' :: (resolved ++ [')'])))) ∧
    convertStr "[x](a/b.md)" "https://example.com"
      = .ok "[x](https://example.com/a/b.md)" ∧
    convertStr "[x](../a)" "https://example.com/d/e"
      = .ok "[x](https://example.com/d/a)" ∧
    convertStr "[x](./a)" "https://example.com/d"
      = .ok "[x](https://example.com/d/a)" ∧
    convertStr "[x](/r)" "https://example.com/d"
      = .ok "[x](https://example.com/r)" :=
  ⟨fun l t b U hl hlb hlo hlg ht htp hex hU hUo hUg =>
      convert_inline_link l t U b hl hlb hlo hlg ht htp hex hU hUo hUg,
    rfl, rfl, rfl, rfl⟩

/-- Witness for C1 at label `x`, target `a/b.md`,
base `https://example.com`. -/
theorem c1_witness :
    convert ("[x](a/b.md)".toList) ("https://example.com".toList)
      = .ok ("[x](https://example.com/a/b.md)".toList) :=
  c1_inline_links_resolved.1 ("x".toList) ("a/b.md".toList)
    ("https://example.com".toList) ("https://example.com/a/b.md".toList)
    (by decide) (by decide) (by decide) (by decide) (by decide) (by decide)
    (by decide) rfl (by decide) (by decide)

/-- C2 counterexample: the claim says an image whose target starts with
`mailto:` IS rewritten (resolved against the base URL), but the output
text is identical to the input. -/
theorem c2_counterexample :
    convertStr "![y](mailto:a@b.com)" "https://example.com"
      = .ok "![y](mailto:a@b.com)" := rfl

/-- C2 as amended: inline links with `http`/`#`/`mailto:` targets and
images with `http`/`#` targets pass through unchanged for every base; an
image with a `mailto:` target IS matched by the image pattern (it is not
excluded) and its target IS passed through urljoin, but urljoin returns
any `mailto:` URL unchanged (`mailto` is not a relative-capable scheme),
so its text is also identical in the output for every base whose parse
succeeds. -/
theorem c2_amended :
    (∀ b, convert ("[x](http://other.com/y)".toList) b
        = .ok ("[x](http://other.com/y)".toList)) ∧
    (∀ b, convert ("[x](#section)".toList) b
        = .ok ("[x](#section)".toList)) ∧
    (∀ b, convert ("[x](mailto:a@b.com)".toList) b
        = .ok ("[x](mailto:a@b.com)".toList)) ∧
    (∀ b, convert ("![y](http://other.com/img.png)".toList) b
        = .ok ("![y](http://other.com/img.png)".toList)) ∧
    (∀ b, convert ("![y](#frag)".toList) b
        = .ok ("![y](#frag)".toList)) ∧
    matchImage ("![y](mailto:a@b.com)".toList)
      = some ("y".toList, "mailto:a@b.com".toList, []) ∧
    (∀ (b : List Char) (pb : ParseResult), urlparse b [] = .ok pb →
        urljoin b ("mailto:a@b.com".toList)
          = .ok ("mailto:a@b.com".toList)) ∧
    (∀ (b : List Char) (pb : ParseResult),
        urlparse (stripSlashes b ++ ['/']) [] = .ok pb →
        convert ("![y](mailto:a@b.com)".toList) b
          = .ok ("![y](mailto:a@b.com)".toList)) := by
  refine ⟨convert_id_of_nomatch _ rfl rfl rfl,
    convert_id_of_nomatch _ rfl rfl rfl,
    convert_id_of_nomatch _ rfl rfl rfl,
    convert_id_of_nomatch _ rfl rfl rfl,
    convert_id_of_nomatch _ rfl rfl rfl,
    rfl,
    fun b pb hb => urljoin_mailto b pb hb,
    ?_⟩
  intro b pb hb
  have hu : urljoin (stripSlashes b ++ ['/']) ("mailto:a@b.com".toList)
      = .ok ("mailto:a@b.com".toList) := urljoin_mailto _ pb hb
  have e1 : subInline (stripSlashes b ++ ['/'])
      ("![y](mailto:a@b.com)".toList) = .ok ("![y](mailto:a@b.com)".toList) :=
    subInlineGo_id _ _ _ rfl
  have e2 : subImage (stripSlashes b ++ ['/'])
      ("![y](mailto:a@b.com)".toList) = .ok ("![y](mailto:a@b.com)".toList) :=
    subImage_single (stripSlashes b ++ ['/']) ("y".toList)
      ("mailto:a@b.com".toList) ("mailto:a@b.com".toList)
      (by decide) (by decide) (by decide) (by decide) hu
  have e3 : subRef (stripSlashes b ++ ['/'])
      ("![y](mailto:a@b.com)".toList) = .ok ("![y](mailto:a@b.com)".toList) :=
    subRefGo_id _ _ _ _ rfl
  unfold convert
  dsimp only []
  rw [e1]
  dsimp only []
  rw [e2]
  dsimp only []
  exact e3

/-- Witness for C2 as amended, at base `https://example.com`. -/
theorem c2_witness :
    convert ("![y](mailto:a@b.com)".toList) ("https://example.com".toList)
      = .ok ("![y](mailto:a@b.com)".toList) :=
  c2_amended.2.2.2.2.2.2.2 ("https://example.com".toList)
    ⟨"https".toList, "example.com".toList, "/".toList, [], [], []⟩ rfl

/-- C3: a reference-style definition at a line start is rewritten, the
target resolved against the base and the trailing text reattached
verbatim (general statement for the reference pass); concretely
`[ref]: path/to/file "Title"` with base `https://example.com` becomes
`[ref]: https://example.com/path/to/file "Title"`, while the same text
mid-line is untouched by the reference pass for every base. -/
theorem c3_reference_definitions :
    (∀ (label ws target trailing b resolved : List Char),
        label ≠ [] → ']' ∉ label →
        ws.all pySpace = true →
        target ≠ [] → target.all (fun c => !(pySpace c)) = true →
        excludedRef (target ++ trailing) = false →
        (∀ d, trailing.head? = some d → pySpace d = true) →
        '\n' ∉ trailing →
        urljoin b target = .ok resolved →
        subRef b ('[' :: (label ++ ']' :: ':' :: (ws ++ (target ++ trailing))))
          = .ok ('[' :: (label ++ ']' :: ':' :: ' ' :: (resolved ++ trailing)))) ∧
    convertStr "[ref]: path/to/file \"Title\"" "https://example.com"
      = .ok "[ref]: https://example.com/path/to/file \"Title\"" ∧
    (∀ b, subRef b ("x [ref]: path/to/file \"Title\"".toList)
        = .ok ("x [ref]: path/to/file \"Title\"".toList)) :=
  ⟨fun l ws t tr b U hl hlb hws ht hts hex htr hnl hU =>
      subRef_single b l ws t tr U hl hlb hws ht hts hex htr hnl hU,
    rfl,
    fun b => subRefGo_id b _ true _ rfl⟩

/-- Witness for C3 at `[ref]: path/to/file "Title"` with base text
`https://example.com/` already normalized and a slash appended. -/
theorem c3_witness :
    subRef ("https://example.com/".toList)
        ("[ref]: path/to/file \"Title\"".toList)
      = .ok ("[ref]: https://example.com/path/to/file \"Title\"".toList) :=
  c3_reference_definitions.1 ("ref".toList) (" ".toList)
    ("path/to/file".toList) (" \"Title\"".toList)
    ("https://example.com/".toList)
    ("https://example.com/path/to/file".toList)
    (by decide) (by decide) (by decide) (by decide) (by decide) (by decide)
    (fun d hd => by
      injection hd with hd
      rw [← hd]
      decide)
    (by decide) rfl

/-- C4 counterexample: the normalization strips ALL trailing slashes,
not exactly one; with base `https://example.com//` the code resolves
`?q` against `https://example.com/` (single slash), while a
trim-exactly-one normalization would resolve it against
`https://example.com//` and produce a double slash. -/
theorem c4_counterexample :
    stripSlashes ("https://example.com//".toList)
        ≠ trimOneSlash ("https://example.com//".toList) ∧
    convertStr "[x](?q)" "https://example.com//"
      = .ok "[x](https://example.com/?q)" ∧
    urljoin (trimOneSlash ("https://example.com//".toList) ++ ['/'])
        ("?q".toList) = .ok ("https://example.com//?q".toList) :=
  ⟨by decide, rfl, rfl⟩

/-- C4 as amended: the base URL is normalized by trimming ALL trailing
slashes; consequently appending a trailing slash to any base URL never
changes the output of rewrite (in particular a base with a single
trailing slash behaves like the same base without it). -/
theorem c4_amended :
    (∀ (content b : List Char),
        convert content (b ++ ['/']) = convert content b) ∧
    (∀ b : List Char, stripSlashes (b ++ ['/']) = stripSlashes b) := by
  constructor
  · intro c b
    unfold convert
    rw [stripSlashes_snoc]
  · exact stripSlashes_snoc

/-- Witness for C4 as amended: `https://example.com/` and
`https://example.com` agree on a concrete document. -/
theorem c4_witness :
    convert ("[x](a.md)".toList) ("https://example.com/".toList)
      = convert ("[x](a.md)".toList) ("https://example.com".toList) :=
  c4_amended.1 ("[x](a.md)".toList) ("https://example.com".toList)

/-- C5: on an already-absolute document (every link, image and
reference-definition target starts with `http`) rewrite is the identity,
hence idempotent: a second application returns the first output. -/
theorem c5_idempotent_on_absolute :
    ∀ (content b : List Char), allAbsB content = true →
      ∃ out, convert content b = .ok out ∧ convert out b = .ok out := by
  intro c b h
  simp only [allAbsB, Bool.and_eq_true] at h
  have hc : convert c b = .ok c := by
    have e1 : subInline (stripSlashes b ++ ['/']) c = .ok c :=
      subInlineGo_abs _ _ _ h.1.1
    have e2 : subImage (stripSlashes b ++ ['/']) c = .ok c :=
      subImageGo_abs _ _ _ h.1.2
    have e3 : subRef (stripSlashes b ++ ['/']) c = .ok c :=
      subRefGo_abs _ _ _ _ h.2
    unfold convert
    dsimp only []
    rw [e1]
    dsimp only []
    rw [e2]
    dsimp only []
    exact e3
  exact ⟨c, hc, hc⟩

/-- Witness for C5 on a concrete all-absolute document. -/
theorem c5_witness :
    allAbsB ("[x](http://a/b) ![y](http://c/d)\n[r]: http://e \"T\"".toList)
        = true ∧
    ∃ out, convert
        ("[x](http://a/b) ![y](http://c/d)\n[r]: http://e \"T\"".toList)
        ("https://example.com".toList) = .ok out ∧
      convert out ("https://example.com".toList) = .ok out :=
  ⟨rfl, c5_idempotent_on_absolute _ ("https://example.com".toList) rfl⟩

/-- C6: the absolute-target exclusion is a case-sensitive literal prefix
test: `HTTP://...` and `Mailto:...` targets are not excluded, the inline
pattern matches them and they go through the resolution step; with base
`http://example.com` the target `HTTP://other.com/y` is actually changed
(urljoin lowercases its scheme). -/
theorem c6_case_sensitive_exclusion :
    excludedInline ("HTTP://other.com/y".toList) = false ∧
    excludedInline ("Mailto:a@b.com".toList) = false ∧
    matchInline ("[x](HTTP://other.com/y)".toList)
      = some ("x".toList, "HTTP://other.com/y".toList, []) ∧
    matchInline ("[x](Mailto:a@b.com)".toList)
      = some ("x".toList, "Mailto:a@b.com".toList, []) ∧
    convertStr "[x](HTTP://other.com/y)" "http://example.com"
      = .ok "[x](http://other.com/y)" :=
  ⟨rfl, rfl, rfl, rfl, rfl⟩

/-- C7 counterexample: the rewriter is NOT total — resolving the
matched target `//[a` raises ValueError "Invalid IPv6 URL" inside
urljoin, which escapes `convert_markdown_urls`. -/
theorem c7_counterexample :
    convertStr "[x](//[a)" "https://example.com"
      = .error "Invalid IPv6 URL" := rfl

/-- C7 as amended: the rewriter introduces no failure of its own — any
error it returns is one of the two ValueErrors of URL parsing (an
unbalanced bracketed authority, or the authority check on a non-ASCII
netloc). -/
theorem c7_amended :
    ∀ (content b : List Char) (e : String),
      convert content b = .error e →
      e = msgInvalidIPv6 ∨ e = msgBadNetloc :=
  fun content b e h => convert_error content b e h

/-- Witness for C7 as amended at a concrete raising input. -/
theorem c7_witness :
    "Invalid IPv6 URL" = msgInvalidIPv6 ∨ "Invalid IPv6 URL" = msgBadNetloc :=
  c7_amended ("[x](//[b)".toList) ("https://example.com".toList)
    "Invalid IPv6 URL" rfl

/-- C8: rewrite is the identity on any document in which no position
matches any of the three patterns, for every base URL. -/
theorem c8_identity_without_syntax :
    ∀ (content b : List Char), noInlineB content = true →
      noImageB content = true → noRefB true content = true →
      convert content b = .ok content :=
  fun content b h1 h2 h3 => convert_id_of_nomatch content h1 h2 h3 b

/-- Witness for C8 on a concrete plain document. -/
theorem c8_witness :
    convert ("Just plain text with no links at all.".toList)
        ("https://example.com".toList)
      = .ok ("Just plain text with no links at all.".toList) :=
  c8_identity_without_syntax _ ("https://example.com".toList) rfl rfl rfl

/-- C9: `main` exits 1 with a console error and writes nothing when
`BASE_URL` is unset (or empty), regardless of arguments and file system;
also exits 1 writing nothing on wrong argument count, missing input
file, or a conversion error; on success it exits 0 and writes the
converted content to the `_converted` sibling file. -/
theorem c9_main_behavior :
    (∀ (argv : List String) (fs : String → Option String),
        runMain none argv fs = ⟨1, none, [.errNoBaseUrl, .usage]⟩) ∧
    (∀ (argv : List String) (fs : String → Option String),
        runMain (some "") argv fs = ⟨1, none, [.errNoBaseUrl, .usage]⟩) ∧
    (∀ (b : String) (argv : List String) (fs : String → Option String),
        b ≠ "" → argv.length ≠ 2 →
        runMain (some b) argv fs = ⟨1, none, [.errNoInputArg, .usage]⟩) ∧
    (∀ (b p f : String) (fs : String → Option String),
        b ≠ "" → fs f = none →
        runMain (some b) [p, f] fs = ⟨1, none, [.errNotFound f]⟩) ∧
    (∀ (b p f content e : String) (fs : String → Option String),
        b ≠ "" → fs f = some content → convertStr content b = .error e →
        runMain (some b) [p, f] fs = ⟨1, none, [.errProcessing e]⟩) ∧
    (∀ (b p f content out : String) (fs : String → Option String),
        b ≠ "" → fs f = some content → convertStr content b = .ok out →
        runMain (some b) [p, f] fs
          = ⟨0, some (withConvertedStem f, out),
              [.success (withConvertedStem f)]⟩) := by
  refine ⟨fun argv fs => rfl, fun argv fs => rfl, ?_, ?_, ?_, ?_⟩
  · intro b argv fs hb hargc
    unfold runMain
    dsimp only []
    rw [if_neg hb, if_pos hargc]
  · intro b p f fs hb hfs
    unfold runMain
    dsimp only []
    rw [if_neg hb, if_neg (show ¬ (([p, f] : List String).length ≠ 2) by simp)]
    rw [show ([p, f] : List String).getD 1 "" = f from rfl]
    rw [hfs]
  · intro b p f content e fs hb hfs hconv
    unfold runMain
    dsimp only []
    rw [if_neg hb, if_neg (show ¬ (([p, f] : List String).length ≠ 2) by simp)]
    rw [show ([p, f] : List String).getD 1 "" = f from rfl]
    rw [hfs]
    dsimp only []
    rw [hconv]
  · intro b p f content out fs hb hfs hconv
    unfold runMain
    dsimp only []
    rw [if_neg hb, if_neg (show ¬ (([p, f] : List String).length ≠ 2) by simp)]
    rw [show ([p, f] : List String).getD 1 "" = f from rfl]
    rw [hfs]
    dsimp only []
    rw [hconv]

/-- Witness for C9: no `BASE_URL` gives exit 1 with no file written; a
successful end-to-end run writes `doc_converted.md` and exits 0. -/
theorem c9_witness :
    runMain none ["prog", "doc.md"] (fun _ => none)
      = ⟨1, none, [.errNoBaseUrl, .usage]⟩ ∧
    runMain (some "https://site.io") ["prog", "doc.md"]
        (fun p => if p = "doc.md" then some "[Home](index.html)" else none)
      = ⟨0, some ("doc_converted.md", "[Home](https://site.io/index.html)"),
          [.success "doc_converted.md"]⟩ := by
  constructor
  · exact c9_main_behavior.1 ["prog", "doc.md"] (fun _ => none)
  · exact c9_main_behavior.2.2.2.2.2 "https://site.io" "prog" "doc.md"
      "[Home](index.html)" "[Home](https://site.io/index.html)"
      (fun p => if p = "doc.md" then some "[Home](index.html)" else none)
      (by decide) rfl rfl

/-- C10: in the reference pass the whitespace after the colon is not
preserved — any two all-whitespace runs (empty, spaces, tabs, even
newlines) between `:` and the target produce the same output, which has
exactly one space there, while the trailing text keeps its spacing. -/
theorem c10_reference_whitespace_collapsed :
    (∀ (label ws1 ws2 target trailing b resolved : List Char),
        label ≠ [] → ']' ∉ label →
        ws1.all pySpace = true → ws2.all pySpace = true →
        target ≠ [] → target.all (fun c => !(pySpace c)) = true →
        excludedRef (target ++ trailing) = false →
        (∀ d, trailing.head? = some d → pySpace d = true) →
        '\n' ∉ trailing →
        urljoin b target = .ok resolved →
        subRef b ('[' :: (label ++ ']' :: ':' :: (ws1 ++ (target ++ trailing))))
            = .ok ('[' :: (label ++ ']' :: ':' :: ' ' ::
                (resolved ++ trailing))) ∧
        subRef b ('[' :: (label ++ ']' :: ':' :: (ws2 ++ (target ++ trailing))))
            = .ok ('[' :: (label ++ ']' :: ':' :: ' ' ::
                (resolved ++ trailing)))) ∧
    convertStr "[a]:\t\t b  c" "https://example.com"
      = .ok "[a]: https://example.com/b  c" ∧
    convertStr "[a]:b  c" "https://example.com"
      = .ok "[a]: https://example.com/b  c" :=
  ⟨fun l ws1 ws2 t tr b U hl hlb hws1 hws2 ht hts hex htr hnl hU =>
      ⟨subRef_single b l ws1 t tr U hl hlb hws1 ht hts hex htr hnl hU,
        subRef_single b l ws2 t tr U hl hlb hws2 ht hts hex htr hnl hU⟩,
    rfl, rfl⟩

/-- Witness for C10: an empty run and a two-tab run collapse to the
same single space. -/
theorem c10_witness :
    subRef ("https://example.com/".toList) ("[a]:\t\tb c".toList)
        = .ok ("[a]: https://example.com/b c".toList) ∧
    subRef ("https://example.com/".toList) ("[a]:b c".toList)
        = .ok ("[a]: https://example.com/b c".toList) := by
  have h := c10_reference_whitespace_collapsed.1 ("a".toList) ("\t\t".toList)
    [] ("b".toList) (" c".toList) ("https://example.com/".toList)
    ("https://example.com/b".toList)
    (by decide) (by decide) (by decide) (by decide) (by decide) (by decide)
    (by decide)
    (fun d hd => by
      injection hd with hd
      rw [← hd]
      decide)
    (by decide) rfl
  exact ⟨h.1, h.2⟩

end MdConv
